import Mathlib

/-!
# Verification of the kubishi dictionary ingestion/backup pipeline

Shallow embedding of the ingestion and backup/rollback pipeline of the
kubishi dictionary API repository: `scripts/upload.js`, `scripts/rollback.js`
and the legacy upload-script variant.  External collaborators (the document
store, the embedding provider, the SHA-256 routine of the crypto library and
the JSON serializer) are modelled as opaque parameters or as faithful pure
state, following the specification's scoping.  Stateful JavaScript code is
modelled by explicit state passing; fallible code returns `Except`/`Option`.
-/

/-! ## JavaScript-style helpers -/

/-- JavaScript truthiness filter on a nullable string: `null`/`undefined` and
the empty string are falsy, every other string is truthy. -/
def truthyStr : Option String → Option String
  | some s => if s = "" then none else some s
  | none => none

/-- JavaScript `a || b` on nullable strings: `a` when truthy, otherwise `b`. -/
def jsOrOpt (a b : Option String) : Option String :=
  match truthyStr a with
  | some s => some s
  | none => b

/-! ## Embedding provider and on-disk embedding cache

`getEmbedding` (the OpenAI call) is opaque; it may fail with an error
message.  The cache directory `~/.kubishi-dictionary/embeddings/<cacheName>/`
is modelled as an association list keyed by `(cacheName, hexHash)`; the
SHA-256 hex digest of the crypto library is an opaque function parameter
`sha256hex`.  A cache file on disk either parses to `{text, embedding}` or is
corrupt (read/parse failure). -/

/-- An embedding vector (the floats are opaque payload data). -/
abbrev Vec := List Int

/-- `vectorToBinary`: the packed BSON `Binary` wrapper around a vector. -/
structure EmbBinary where
  vec : Vec
deriving DecidableEq

/-- `vectorToBinary(vector)` from `scripts/upload.js`. -/
def vectorToBinary (v : Vec) : EmbBinary := ⟨v⟩

/-- The embedding provider `getEmbedding`: opaque, may fail. -/
abbrev Provider := String → Except String Vec

/-- Contents of one cache file: parses to `{text, embedding}` or is corrupt. -/
inductive CacheFile where
  | valid (text : String) (embedding : Vec)
  | corrupt
deriving DecidableEq

/-- The on-disk embedding cache, keyed by `(cacheName, hexHash)`. -/
abbrev Cache := List ((String × String) × CacheFile)

/-- Reading the cache file at a key (`fs.existsSync` + read). -/
def cacheLookup (c : Cache) (k : String × String) : Option CacheFile :=
  c.lookup k

/-- `fs.writeFileSync` of a cache file: the new file shadows any previous
one at the same key. -/
def cacheWrite (c : Cache) (k : String × String) (f : CacheFile) : Cache :=
  (k, f) :: c

/-- Result of a successful `getCachedEmbedding` call: the vector, the cache
state afterwards, and whether the provider was invoked. -/
structure CacheOutcome where
  embedding : Vec
  cache : Cache
  providerCalled : Bool
deriving DecidableEq

/-- `getCachedEmbedding(text, cacheName)` from `scripts/upload.js` lines
38-60: hash the exact input text, look the file up under the category's
namespace; on a parsed hit return the stored vector; on a miss or a
read/parse failure call the provider, persist `{text, embedding}` and return
the vector.  A provider failure propagates to the caller. -/
def getCachedEmbedding (sha256hex : String → String) (provider : Provider)
    (cache : Cache) (text cacheName : String) : Except String CacheOutcome :=
  let key := (cacheName, sha256hex text)
  match cacheLookup cache key with
  | some (.valid _ emb) => .ok ⟨emb, cache, false⟩
  | _ =>
    match provider text with
    | .ok emb => .ok ⟨emb, cacheWrite cache key (.valid text emb), true⟩
    | .error e => .error e

/-! ## Extracted entry records

The flat records produced by `extractEntries` (text leaves modelled as
strings at this stage; the raw parsed-XML shapes are modelled separately for
the extractor itself, below). -/

/-- One extracted example (`exampleData` in `extractEntries`). -/
structure ExampleRec where
  source : Option String
  form : Option String
  translation : Option String
  note : Option String
deriving DecidableEq

/-- One extracted sense (`senseData` in `extractEntries`). -/
structure Sense where
  id : Option String
  grammatical_info : Option String
  gloss : Option String
  definition : Option String
  examples : List ExampleRec
deriving DecidableEq

/-- One extracted entry (`entryData` in `extractEntries`). -/
structure Entry where
  id : String
  dateCreated : Option String
  dateModified : Option String
  guid : Option String
  lexical_unit : Option String
  word : Option String
  traits : List (String × String)
  senses : List Sense
deriving DecidableEq

/-! ## formatSource

`formatSource(source)` is `source.replace(/\bnn\b/g, 'Norma Nelson')` with
falsy input mapped to the empty string.  The regex engine is modelled by a
left-to-right scanner: `\b` holds at a position iff exactly one of the
adjacent characters is a word character (`[A-Za-z0-9_]`); the scanner carries
whether the previous character was a word character. -/

/-- JavaScript `\w` character class. -/
def isWordChar (c : Char) : Bool := c.isAlphanum || c == '_'

/-- The replacement text of the `formatSource` rewrite. -/
def normaNelson : List Char := "Norma Nelson".toList

/-- Whether a list of characters starts with a word character (word-boundary
test against the character after a candidate match; the end of the string is
not a word character). -/
def headIsWordChar : List Char → Bool
  | c :: _ => isWordChar c
  | [] => false

/-- Left-to-right scan of `/\bnn\b/g` replacement: `prev` records whether the
character before the current position is a word character.  A match needs a
non-word context on both sides; on failure the scan advances one character. -/
def replNN (prev : Bool) : List Char → List Char
  | 'n' :: 'n' :: rest =>
    if !prev && !headIsWordChar rest then
      normaNelson ++ replNN true rest
    else
      'n' :: replNN true ('n' :: rest)
  | c :: rest => c :: replNN (isWordChar c) rest
  | [] => []

/-- `formatSource(source)` from `scripts/upload.js` lines 197-200 (identical
in the legacy variant): falsy input yields `""`, otherwise every whole-word
`nn` is rewritten to `Norma Nelson`. -/
def formatSource : Option String → String
  | none => ""
  | some s => if s = "" then "" else String.mk (replNN false s.toList)

/-! ## uploadWords -/

/-- Text-to-embed for a word entry (`uploadWords`, lines 233-237):
`[entry.word || entry.lexical_unit, ...glosses.filter(Boolean),
...definitions.filter(Boolean)].join(' ')`; `Array.join` renders a null
element as the empty string. -/
def textToEmbedWord (e : Entry) : String :=
  String.intercalate " "
    (((jsOrOpt e.word e.lexical_unit).getD "") ::
      ((e.senses.map Sense.gloss).filterMap truthyStr ++
       (e.senses.map Sense.definition).filterMap truthyStr))

/-- The fields of a prior-snapshot word document that `uploadWords` consults
for embedding reuse. -/
structure PriorWord where
  dateModified : Option String
  embedding : Option EmbBinary
deriving DecidableEq

/-- `sourceWordsMap`: id → prior word document. -/
abbrev WordsMap := List (String × PriorWord)

/-- Console warnings of the two embedding-failure `console.error` sites, one
constructor per site, carrying exactly the data each template interpolates. -/
inductive LogEvent where
  | warnWordEmbedding (entryId : String) (errMsg : String)
  | warnSentenceEmbedding (errMsg : String)
deriving DecidableEq

/-- The record id a warning message carries, if any. -/
def LogEvent.recordId : LogEvent → Option String
  | .warnWordEmbedding i _ => some i
  | .warnSentenceEmbedding _ => none

/-- The in-place formatting pass at the top of the `uploadWords` loop
(lines 218-223): `if (example.source) example.source =
formatSource(example.source); if (example.note) example.note =
formatSource(example.note)`. -/
def formatExampleFields (ex : ExampleRec) : ExampleRec :=
  { ex with
    source := match truthyStr ex.source with
      | some s => some (formatSource (some s))
      | none => ex.source
    note := match truthyStr ex.note with
      | some s => some (formatSource (some s))
      | none => ex.note }

/-- The formatting pass over all examples of an entry. -/
def formatEntrySources (e : Entry) : Entry :=
  { e with
    senses := e.senses.map
      (fun s => { s with examples := s.examples.map formatExampleFields }) }

/-- The reuse test of `uploadWords` line 227: `sourceWord &&
sourceWord.embedding && sourceWord.dateModified === entry.dateModified`;
returns the prior embedding on a hit. -/
def wordReuseHit (sourceWordsMap : WordsMap) (e : Entry) : Option EmbBinary :=
  match sourceWordsMap.lookup e.id with
  | some p =>
    if p.embedding.isSome && (p.dateModified == e.dateModified) then
      p.embedding
    else none
  | none => none

/-- A word document as inserted: the (formatted) entry plus the optional
embedding attached to it. -/
structure WordDoc where
  entry : Entry
  embedding : Option EmbBinary
deriving DecidableEq

/-- Result of one iteration of the `uploadWords` loop. -/
structure WordStepResult where
  doc : WordDoc
  reused : Bool
  newComputed : Bool
  providerCalls : Nat
  cacheLookups : Nat
  cache : Cache
  warnings : List LogEvent
deriving DecidableEq

/-- The no-reuse branch of the `uploadWords` loop (lines 232-245): resolve
the text-to-embed through `getCachedEmbedding` under category `"words"`; on
failure log a warning naming the entry id and leave the document without an
embedding. -/
def computeWordStep (sha256hex : String → String) (provider : Provider)
    (cache : Cache) (e : Entry) : WordStepResult :=
  match getCachedEmbedding sha256hex provider cache (textToEmbedWord e) "words" with
  | .ok r =>
    ⟨⟨e, some (vectorToBinary r.embedding)⟩, false, true,
      (if r.providerCalled then 1 else 0), 1, r.cache, []⟩
  | .error msg =>
    ⟨⟨e, none⟩, false, false, 1, 1, cache, [.warnWordEmbedding e.id msg]⟩

/-- One iteration of the `uploadWords` loop (lines 214-256): format example
sources, then either reuse the prior snapshot's embedding verbatim or
resolve through the embedding cache. -/
def processWordEntry (sha256hex : String → String) (provider : Provider)
    (sourceWordsMap : WordsMap) (cache : Cache) (e0 : Entry) : WordStepResult :=
  let e := formatEntrySources e0
  match wordReuseHit sourceWordsMap e with
  | some b => ⟨⟨e, some b⟩, true, false, 0, 0, cache, []⟩
  | none => computeWordStep sha256hex provider cache e

/-- Accumulated result of `uploadWords`. -/
structure UploadWordsResult where
  documents : List WordDoc
  reusedEmbeddings : Nat
  newEmbeddings : Nat
  providerCalls : Nat
  cacheLookups : Nat
  cache : Cache
  warnings : List LogEvent
deriving DecidableEq

/-- Folding one word step into the accumulated result. -/
def foldWordStep (sha256hex : String → String) (provider : Provider)
    (sourceWordsMap : WordsMap) (acc : UploadWordsResult) (e : Entry) :
    UploadWordsResult :=
  let r := processWordEntry sha256hex provider sourceWordsMap acc.cache e
  { documents := acc.documents ++ [r.doc]
    reusedEmbeddings := acc.reusedEmbeddings + (if r.reused then 1 else 0)
    newEmbeddings := acc.newEmbeddings + (if r.newComputed then 1 else 0)
    providerCalls := acc.providerCalls + r.providerCalls
    cacheLookups := acc.cacheLookups + r.cacheLookups
    cache := r.cache
    warnings := acc.warnings ++ r.warnings }

/-- `uploadWords(entries, wordsCollection, sourceWordsMap)` (lines 202-270):
the sequential loop over all entries; the documents are then bulk-inserted
(the store itself is opaque), so `documents` is the collection contents. -/
def uploadWords (sha256hex : String → String) (provider : Provider)
    (entries : List Entry) (sourceWordsMap : WordsMap) (cache : Cache) :
    UploadWordsResult :=
  entries.foldl (foldWordStep sha256hex provider sourceWordsMap)
    ⟨[], 0, 0, 0, 0, cache, []⟩

/-! ## uploadSentences: sentence derivation

`uploadSentences` first derives one `Sentence` record per distinct literal
sentence text, accumulating them in the insertion-ordered object
`sentencesMap` (modelled as an insertion-ordered association list keyed by
the literal text; `Object.values` is the ordered list of values).  The
current script (`scripts/upload.js` lines 277-311) guards the
`word_ids.push` with an `includes` test; the legacy variant
(`src/unnamed/part_000` lines 112-133) pushes unconditionally. -/

/-- A derived sentence record of the current script. -/
structure SentenceRec where
  id : String
  sentence : String
  text : String
  translation : String
  word_ids : List String
  source : String
deriving DecidableEq

/-- A derived sentence record of the legacy script variant (no duplicated
`sentence` field). -/
structure LegacySentenceRec where
  id : String
  text : String
  translation : String
  word_ids : List String
  source : String
deriving DecidableEq

/-- The `(entry id, example)` pairs in the order the nested
`for entry / for sense / for example` loops of `uploadSentences` visit
them. -/
def exampleContribs (entries : List Entry) : List (String × ExampleRec) :=
  entries.flatMap (fun e => e.senses.flatMap
    (fun s => s.examples.map (fun ex => (e.id, ex))))

/-- `sentenceText` for one example: `example.form` when it is a truthy
string, otherwise the empty string (which is then skipped).  Extracted
`form` fields are strings, so the `typeof === 'object'` fallback of the
current script is not reachable here. -/
def sentenceTextOf (ex : ExampleRec) : String := ex.form.getD ""

/-- The fresh record the current script creates for a new sentence text
(lines 293-302): `id` is the SHA-256 hex fingerprint of the literal text. -/
def mkSentenceRec (sha256hex : String → String) (t : String) (ex : ExampleRec) :
    SentenceRec :=
  { id := sha256hex t
    sentence := t
    text := t
    translation := (truthyStr ex.translation).getD ""
    word_ids := []
    source := formatSource (some ((truthyStr ex.source).getD "")) }

/-- The insertion-ordered `sentencesMap` under construction. -/
abbrev SentencesAcc := List (String × SentenceRec)

/-- One step of the current script's sentence derivation (lines 279-307):
skip empty text; create the record if the text is new; push the entry id
only when `word_ids` does not already contain it. -/
def sentenceStep (sha256hex : String → String) (acc : SentencesAcc)
    (c : String × ExampleRec) : SentencesAcc :=
  let t := sentenceTextOf c.2
  if t = "" then acc
  else
    let acc1 :=
      if acc.any (fun p => p.1 == t) then acc
      else acc ++ [(t, mkSentenceRec sha256hex t c.2)]
    acc1.map (fun p =>
      if p.1 == t && !(p.2.word_ids.contains c.1) then
        (p.1, { p.2 with word_ids := p.2.word_ids ++ [c.1] })
      else p)

/-- The sentence-derivation phase of the current `uploadSentences`:
`Object.values(sentencesMap)` in insertion order. -/
def deriveSentences (sha256hex : String → String) (entries : List Entry) :
    List SentenceRec :=
  ((exampleContribs entries).foldl (sentenceStep sha256hex) []).map (·.2)

/-- One step of the legacy variant's sentence derivation
(`src/unnamed/part_000` lines 116-131): same skip and creation, but
`word_ids.push(entry.id)` is unconditional. -/
def legacySentenceStep (sha256hex : String → String)
    (acc : List (String × LegacySentenceRec)) (c : String × ExampleRec) :
    List (String × LegacySentenceRec) :=
  let t := sentenceTextOf c.2
  if t = "" then acc
  else
    let acc1 :=
      if acc.any (fun p => p.1 == t) then acc
      else acc ++ [(t,
        { id := sha256hex t
          text := t
          translation := (truthyStr c.2.translation).getD ""
          word_ids := []
          source := formatSource (some ((truthyStr c.2.source).getD "")) })]
    acc1.map (fun p =>
      if p.1 == t then (p.1, { p.2 with word_ids := p.2.word_ids ++ [c.1] })
      else p)

/-- The sentence-derivation phase of the legacy `uploadSentences`. -/
def deriveSentencesLegacy (sha256hex : String → String) (entries : List Entry) :
    List LegacySentenceRec :=
  ((exampleContribs entries).foldl (legacySentenceStep sha256hex) []).map (·.2)

/-- Invariant of the sentence-derivation fold: after processing the
contributions `done`, the accumulator's keys are pairwise distinct; each
record's `text` equals its key and its `word_ids` are exactly the ids of the
entries among `done` that contributed this text, in order and without
duplicates; and the keys are exactly the distinct non-empty texts
among `done`. -/
def SentInv (acc : SentencesAcc) (done : List (String × ExampleRec)) : Prop :=
  (acc.map Prod.fst).Nodup ∧
  (∀ p ∈ acc, p.2.text = p.1 ∧ p.2.word_ids.Nodup ∧
    (∀ i, i ∈ p.2.word_ids ↔
      ∃ c ∈ done, c.1 = i ∧ sentenceTextOf c.2 = p.1)) ∧
  (∀ t, (∃ p ∈ acc, p.1 = t) ↔
    (t ≠ "" ∧ ∃ c ∈ done, sentenceTextOf c.2 = t))

/-! ## uploadSentences: embedding phase -/

/-- The fields of a prior-snapshot sentence document consulted for reuse. -/
structure PriorSentence where
  embedding : Option EmbBinary
deriving DecidableEq

/-- `sourceSentencesMap`: id → prior sentence document. -/
abbrev SentencesMap := List (String × PriorSentence)

/-- A sentence document as inserted. -/
structure SentenceDoc where
  record : SentenceRec
  embedding : Option EmbBinary
deriving DecidableEq

/-- Result of one iteration of the sentence embedding loop. -/
structure SentenceStepResult where
  doc : SentenceDoc
  reused : Bool
  newComputed : Bool
  providerCalls : Nat
  cacheLookups : Nat
  cache : Cache
  warnings : List LogEvent
deriving DecidableEq

/-- The no-reuse branch of the sentence loop (lines 333-342): embed
`` `${sentence.text} ${sentence.translation}` `` through the cache under
category `"sentences"`; on failure log a warning that carries only the error
message. -/
def computeSentenceStep (sha256hex : String → String) (provider : Provider)
    (cache : Cache) (s : SentenceRec) : SentenceStepResult :=
  match getCachedEmbedding sha256hex provider cache
      (s.text ++ " " ++ s.translation) "sentences" with
  | .ok r =>
    ⟨⟨s, some (vectorToBinary r.embedding)⟩, false, true,
      (if r.providerCalled then 1 else 0), 1, r.cache, []⟩
  | .error msg =>
    ⟨⟨s, none⟩, false, false, 1, 1, cache, [.warnSentenceEmbedding msg]⟩

/-- The reuse test of the sentence loop (line 328): `sourceSentence &&
sourceSentence.embedding`. -/
def sentenceReuseHit (sourceSentencesMap : SentencesMap) (s : SentenceRec) :
    Option EmbBinary :=
  (sourceSentencesMap.lookup s.id).bind PriorSentence.embedding

/-- One iteration of the sentence embedding loop (lines 323-352). -/
def processSentenceRec (sha256hex : String → String) (provider : Provider)
    (sourceSentencesMap : SentencesMap) (cache : Cache) (s : SentenceRec) :
    SentenceStepResult :=
  match sentenceReuseHit sourceSentencesMap s with
  | some b => ⟨⟨s, some b⟩, true, false, 0, 0, cache, []⟩
  | none => computeSentenceStep sha256hex provider cache s

/-- Accumulated result of `uploadSentences`. -/
structure UploadSentencesResult where
  documents : List SentenceDoc
  reusedEmbeddings : Nat
  newEmbeddings : Nat
  providerCalls : Nat
  cacheLookups : Nat
  cache : Cache
  warnings : List LogEvent
deriving DecidableEq

/-- Folding one sentence step into the accumulated result. -/
def foldSentenceStep (sha256hex : String → String) (provider : Provider)
    (sourceSentencesMap : SentencesMap) (acc : UploadSentencesResult)
    (s : SentenceRec) : UploadSentencesResult :=
  let r := processSentenceRec sha256hex provider sourceSentencesMap acc.cache s
  { documents := acc.documents ++ [r.doc]
    reusedEmbeddings := acc.reusedEmbeddings + (if r.reused then 1 else 0)
    newEmbeddings := acc.newEmbeddings + (if r.newComputed then 1 else 0)
    providerCalls := acc.providerCalls + r.providerCalls
    cacheLookups := acc.cacheLookups + r.cacheLookups
    cache := r.cache
    warnings := acc.warnings ++ r.warnings }

/-- `uploadSentences(entries, sentencesCollection, sourceSentencesMap)`
(lines 272-365): derive the deduplicated sentence records, then the
sequential embedding loop; the documents are then bulk-inserted. -/
def uploadSentences (sha256hex : String → String) (provider : Provider)
    (entries : List Entry) (sourceSentencesMap : SentencesMap) (cache : Cache) :
    UploadSentencesResult :=
  (deriveSentences sha256hex entries).foldl
    (foldSentenceStep sha256hex provider sourceSentencesMap)
    ⟨[], 0, 0, 0, 0, cache, []⟩

/-! ## The upload `main` flow -/

/-- A word document of the pre-existing `words` collection, as consulted by
the backup step for reuse-map building. -/
structure DbWordDoc where
  id : String
  dateModified : Option String
  embedding : Option EmbBinary
deriving DecidableEq

/-- A sentence document of the pre-existing `sentences` collection. -/
structure DbSentenceDoc where
  id : String
  embedding : Option EmbBinary
deriving DecidableEq

/-- Joint result of the two upload phases of one run. -/
structure UploadRunResult where
  words : UploadWordsResult
  sentences : UploadSentencesResult
deriving DecidableEq

/-- The embedding-relevant part of `main()` in `scripts/upload.js`
(lines 459-529): `sourceWordsMap` and `sourceSentencesMap` start empty and
are populated only inside the `if (doBackup)` backup step; the collections
are then dropped, and `uploadWords` runs before `uploadSentences` on the
same (source-formatted, in place) entry objects. -/
def mainUploadFlow (sha256hex : String → String) (provider : Provider)
    (doBackup : Bool) (dbWords : List DbWordDoc)
    (dbSentences : List DbSentenceDoc) (entries : List Entry)
    (cache : Cache) : UploadRunResult :=
  let sourceWordsMap : WordsMap :=
    if doBackup then dbWords.map (fun w => (w.id, ⟨w.dateModified, w.embedding⟩))
    else []
  let sourceSentencesMap : SentencesMap :=
    if doBackup then dbSentences.map (fun s => (s.id, ⟨s.embedding⟩))
    else []
  let wr := uploadWords sha256hex provider entries sourceWordsMap cache
  let sr := uploadSentences sha256hex provider (entries.map formatEntrySources)
    sourceSentencesMap wr.cache
  ⟨wr, sr⟩

/-! ## Backup directory and rollback

The backup directory `~/.kubishi/backups` is modelled as a list of
`(fileName, parsed documents)` pairs; a newly written file shadows any older
file of the same name.  Documents are opaque payloads (type parameter `α`):
the store and the JSON serializer round-trip them unchanged (apart from the
store-regenerated `_id`, which is outside the document payload here).
Creating the directory itself (`ensureBackupDir`) adds no file and is a
no-op in this model. -/

/-- The backup directory contents. -/
abbrev Disk (α : Type) := List (String × List α)

/-- `words_<timestamp>.json`. -/
def wordsFileName (ts : String) : String := "words_" ++ ts ++ ".json"

/-- `sentences_<timestamp>.json`. -/
def sentencesFileName (ts : String) : String := "sentences_" ++ ts ++ ".json"

/-- `<collection>_<timestamp>_<label>.json` as written by
`saveCurrentState`. -/
def labeledFileName (coll ts label : String) : String :=
  coll ++ "_" ++ ts ++ "_" ++ label ++ ".json"

/-- The two target collections. -/
structure Store (α : Type) where
  words : List α
  sentences : List α
deriving DecidableEq

/-- The backup step of `upload.js main()` (lines 464-513), disk effects
only: export each collection to `<collection>_<timestamp>.json`, but only
when it is non-empty. -/
def backupCollections {α : Type} (disk : Disk α) (store : Store α)
    (ts : String) : Disk α :=
  let d1 := if store.words.isEmpty then disk
    else (wordsFileName ts, store.words) :: disk
  if store.sentences.isEmpty then d1
  else (sentencesFileName ts, store.sentences) :: d1

/-- `saveCurrentState(db, label)` from `scripts/rollback.js` lines 38-72:
export each collection to a label-suffixed file, but only when
`countDocuments() > 0`. -/
def saveCurrentState {α : Type} (disk : Disk α) (db : Store α)
    (ts label : String) : Disk α :=
  let d1 := if db.words.isEmpty then disk
    else (labeledFileName "words" ts label, db.words) :: disk
  if db.sentences.isEmpty then d1
  else (labeledFileName "sentences" ts label, db.sentences) :: d1

/-- Observable store operations of `restoreFromBackup`, in program order. -/
inductive RbEvent (α : Type) where
  | clearedCollections (deletedWords deletedSentences : Nat)
  | restoredWords (docs : List α)
  | warnedWordsFileMissing
  | restoredSentences (docs : List α)
  | warnedSentencesFileMissing
deriving DecidableEq

/-- Result of `restoreFromBackup`. -/
structure RestoreResult (α : Type) where
  store : Store α
  trace : List (RbEvent α)
deriving DecidableEq

/-- `restoreFromBackup(db, timestamp)` from `scripts/rollback.js` lines
74-140: `deleteMany({})` on both collections first, then for each collection
load `<collection>_<timestamp>.json` if it exists and bulk-insert its
documents, otherwise log a missing-file warning and leave the collection as
the clear left it.  Index recreation touches no documents and is omitted. -/
def restoreFromBackup {α : Type} (disk : Disk α) (db : Store α)
    (ts : String) : RestoreResult α :=
  let cleared : RbEvent α :=
    .clearedCollections db.words.length db.sentences.length
  let wordsPart : List α × List (RbEvent α) :=
    match disk.lookup (wordsFileName ts) with
    | some docs => (docs, [.restoredWords docs])
    | none => ([], [.warnedWordsFileMissing])
  let sentencesPart : List α × List (RbEvent α) :=
    match disk.lookup (sentencesFileName ts) with
    | some docs => (docs, [.restoredSentences docs])
    | none => ([], [.warnedSentencesFileMissing])
  ⟨⟨wordsPart.1, sentencesPart.1⟩, cleared :: (wordsPart.2 ++ sentencesPart.2)⟩

/-- Parse a backup file name against `^(words|sentences)_(.+)\.json$`:
returns the collection marker (`true` for words) and the timestamp. -/
def parseBackupFileName (name : String) : Option (Bool × String) :=
  let cs := name.toList
  if "words_".toList.isPrefixOf cs && ".json".toList.isSuffixOf cs then
    let mid := (cs.drop 6).take (cs.length - 11)
    if mid.isEmpty then none else some (true, String.mk mid)
  else if "sentences_".toList.isPrefixOf cs && ".json".toList.isSuffixOf cs then
    let mid := (cs.drop 10).take (cs.length - 15)
    if mid.isEmpty then none else some (false, String.mk mid)
  else none

/-- One discovered backup timestamp and which collections it covers. -/
structure BackupInfo where
  timestamp : String
  words : Bool
  sentences : Bool
deriving DecidableEq

/-- Group one parsed backup file into the discovery accumulator
(`listBackupFiles` lines 24-33, `Map` insertion order). -/
def addBackupFile (acc : List BackupInfo) (name : String) : List BackupInfo :=
  match parseBackupFileName name with
  | none => acc
  | some (isW, ts) =>
    if acc.any (fun b => b.timestamp == ts) then
      acc.map (fun b =>
        if b.timestamp == ts then
          (if isW then { b with words := true } else { b with sentences := true })
        else b)
    else
      acc ++ [if isW then ⟨ts, true, false⟩ else ⟨ts, false, true⟩]

/-- Insertion into a list sorted by timestamp, newest first (the
`localeCompare` descending sort, modelled by the codepoint order). -/
def insertNewestFirst (b : BackupInfo) : List BackupInfo → List BackupInfo
  | [] => [b]
  | x :: xs =>
    if x.timestamp < b.timestamp then b :: x :: xs
    else x :: insertNewestFirst b xs

/-- `listBackupFiles()` from `scripts/rollback.js` lines 19-36: scan the
backup directory, group by timestamp, sort newest first. -/
def listBackupFiles (fileNames : List String) : List BackupInfo :=
  (fileNames.foldl addBackupFile []).foldl
    (fun acc b => insertNewestFirst b acc) []

/-- Result of one invocation of the rollback entry point. -/
structure RollbackRunResult (α : Type) where
  exitCode : Nat
  store : Store α
  disk : Disk α
  errorReported : Bool
  trace : List (RbEvent α)
deriving DecidableEq

/-- `/^\d+$/.test(arg)`: the argument is interpreted as a 1-based backup
index rather than a timestamp. -/
def isIndexArg (arg : String) : Bool := arg ≠ "" && arg.toList.all Char.isDigit

/-- `main()` of `scripts/rollback.js` (lines 142-242): list the discovered
backups (exit 1 if none), resolve the argument — an all-digit argument as a
1-based index into the newest-first listing, anything else as a timestamp
that must be among the discovered ones (exit 1 otherwise, before any store
connection) — then save the current state under the `before-rollback` label
and restore the selected snapshot. -/
def rollbackMain {α : Type} (disk : Disk α) (db : Store α) (arg : String)
    (nowTs : String) : RollbackRunResult α :=
  let backups := listBackupFiles (disk.map (·.1))
  if backups.isEmpty then ⟨1, db, disk, true, []⟩
  else
    let sel : Option String :=
      if isIndexArg arg then
        match arg.toNat? with
        | some n =>
          if n = 0 then none else (backups[n - 1]?).map (·.timestamp)
        | none => none
      else
        if backups.any (fun b => b.timestamp == arg) then some arg else none
    match sel with
    | none => ⟨1, db, disk, true, []⟩
    | some ts =>
      let disk1 := saveCurrentState disk db nowTs "before-rollback"
      let r := restoreFromBackup disk1 db ts
      ⟨0, r.store, disk1, false, r.trace⟩

/-! ## Parsed-XML values and the example extractor

`xml2js` with `explicitArray: false` yields strings, plain objects and
arrays.  Optional chaining `x?.f` yields `undefined` (here `none`) on a
non-object; `x || null` collapses a falsy value (the empty string) to
`null`. -/

/-- A parsed XML node as produced by `xml2js`. -/
inductive JVal where
  | jstr (s : String)
  | jarr (elems : List JVal)
  | jobj (fields : List (String × JVal))

/-- Property access `v.f` / `v?.f`: defined only on objects. -/
def jget : JVal → String → Option JVal
  | .jobj fields, k => fields.lookup k
  | _, _ => none

/-- JavaScript truthiness of a parsed node: only the empty string is falsy
(arrays and objects are always truthy). -/
def jtruthy : JVal → Bool
  | .jstr s => s ≠ ""
  | _ => true

/-- `Array.isArray(v) ? v[0] : v` — normalise a single-or-sequence node to
its first element (an empty sequence yields `undefined`). -/
def jfirst : JVal → Option JVal
  | .jarr xs => xs.head?
  | v => some v

/-- `x || null`: collapse a falsy value to `null`. -/
def jOrNull : Option JVal → Option JVal
  | some v => if jtruthy v then some v else none
  | none => none

/-- The extracted fields of one example node, at parse-tree level. -/
structure ExampleJ where
  source : Option JVal
  form : Option JVal
  translation : Option JVal
  note : Option JVal

/-- The `formText` computation of the current extractor
(`scripts/upload.js` lines 148-153): `if (example.form) { const form =
Array.isArray(example.form) ? example.form[0] : example.form; formText =
form?.text || null; }`. -/
def extractFormText (ex : JVal) : Option JVal :=
  match jget ex "form" with
  | some f =>
    if jtruthy f then jOrNull ((jfirst f).bind (fun v => jget v "text"))
    else none
  | none => none

/-- The `translationText`/`noteText` computation of the current extractor
(lines 155-175): guard on the field, first-of-sequence, `.form`, guard,
first-of-sequence, `.text || null`. -/
def extractNestedFormText (ex : JVal) (field : String) : Option JVal :=
  match jget ex field with
  | some t =>
    if jtruthy t then
      match (jfirst t).bind (fun v => jget v "form") with
      | some tf =>
        if jtruthy tf then jOrNull ((jfirst tf).bind (fun v => jget v "text"))
        else none
      | none => none
    else none
  | none => none

/-- The example extraction of the current `extractEntries`
(`scripts/upload.js` lines 147-183). -/
def extractExampleJ (ex : JVal) : ExampleJ :=
  { source := jOrNull ((jget ex "$").bind (fun a => jget a "source"))
    form := extractFormText ex
    translation := extractNestedFormText ex "translation"
    note := extractNestedFormText ex "note" }

/-- The example extraction of the legacy variant (`src/unnamed/part_000`
lines 61-66): plain optional-chaining paths, with no single-or-sequence
normalisation. -/
def extractExampleLegacyJ (ex : JVal) : ExampleJ :=
  { source := jOrNull ((jget ex "$").bind (fun a => jget a "source"))
    form := jOrNull ((jget ex "form").bind (fun v => jget v "text"))
    translation := jOrNull (((jget ex "translation").bind
      (fun v => jget v "form")).bind (fun v => jget v "text"))
    note := jOrNull (((jget ex "note").bind
      (fun v => jget v "form")).bind (fun v => jget v "text")) }

/-! ### Spec-side extraction rule

The claimed extraction rule, written as straight-line path navigation: at
each level normalise a single-or-sequence node by taking the first element,
follow the nested field, and default to null at any missing step (a final
empty text is collapsed to null by the code's `|| null`). -/

/-- Normalise a possibly missing single-or-sequence node to its first
element. -/
def navFirst (x : Option JVal) : Option JVal := x.bind jfirst

/-- Spec-side `form` extraction: first-of-sequence, then `.text`, null on
any missing step. -/
def specFormText (ex : JVal) : Option JVal :=
  jOrNull ((navFirst (jget ex "form")).bind (fun v => jget v "text"))

/-- Spec-side `translation`/`note` extraction: first-of-sequence, then
`.form`, first-of-sequence again, then `.text`, null on any missing step. -/
def specNestedFormText (ex : JVal) (field : String) : Option JVal :=
  jOrNull ((navFirst ((navFirst (jget ex field)).bind
    (fun v => jget v "form"))).bind (fun v => jget v "text"))

/-! ### Spec-side whole-word replacement

A whole-word occurrence of `nn` is a maximal run of word characters equal to
`nn`.  The spec-side replacement decomposes the string into maximal runs and
rewrites exactly the word runs equal to `nn`, leaving every other character
— in particular `nn` embedded in a longer word run — unchanged. -/

/-- Replace each maximal word-character run equal to `nn`, leave everything
else unchanged. -/
def runsReplace : List Char → List Char
  | [] => []
  | c :: rest =>
    if isWordChar c then
      (if c :: rest.takeWhile isWordChar = "nn".toList then normaNelson
       else c :: rest.takeWhile isWordChar) ++
        runsReplace (rest.dropWhile isWordChar)
    else
      c :: runsReplace rest
termination_by l => l.length
decreasing_by
  · simp only [List.length_cons]
    exact Nat.lt_succ_of_le (List.dropWhile_sublist _).length_le
  · simp

/-! ## Theorems -/

/-- Looking up the key just written hits the fresh file. -/
theorem cacheLookup_cacheWrite (c : Cache) (k : String × String)
    (f : CacheFile) : cacheLookup (cacheWrite c k f) k = some f := by
  simp [cacheLookup, cacheWrite, List.lookup]

/-- Claim C5: for every text and cache category, a first `getCachedEmbedding`
call with no existing cache entry invokes the provider and (on success)
writes a cache file keyed by the hex SHA-256 of the exact input text under
the category's namespace; a subsequent call with the same text and category
returns the stored vector without invoking the provider; a stored entry that
fails to read or parse is treated as a miss — the provider is called and the
entry rewritten — and never as a fatal error (the only possible error is the
provider's own). -/
theorem claim_C5_embedding_cache (sha256hex : String → String)
    (provider : Provider) (cache : Cache) (text cacheName : String) :
    (cacheLookup cache (cacheName, sha256hex text) = none →
      (∀ v, provider text = .ok v →
        getCachedEmbedding sha256hex provider cache text cacheName =
          .ok ⟨v, cacheWrite cache (cacheName, sha256hex text) (.valid text v),
            true⟩) ∧
      (∀ err, provider text = .error err →
        getCachedEmbedding sha256hex provider cache text cacheName =
          .error err)) ∧
    (∀ t0 v0,
      cacheLookup cache (cacheName, sha256hex text) = some (.valid t0 v0) →
      getCachedEmbedding sha256hex provider cache text cacheName =
        .ok ⟨v0, cache, false⟩) ∧
    (cacheLookup cache (cacheName, sha256hex text) = some .corrupt →
      (∀ v, provider text = .ok v →
        getCachedEmbedding sha256hex provider cache text cacheName =
          .ok ⟨v, cacheWrite cache (cacheName, sha256hex text) (.valid text v),
            true⟩) ∧
      (∀ err, provider text = .error err →
        getCachedEmbedding sha256hex provider cache text cacheName =
          .error err)) ∧
    (∀ v,
      getCachedEmbedding sha256hex provider
        (cacheWrite cache (cacheName, sha256hex text) (.valid text v))
        text cacheName =
        .ok ⟨v, cacheWrite cache (cacheName, sha256hex text) (.valid text v),
          false⟩) := by
  refine ⟨fun h => ⟨fun v hv => ?_, fun err herr => ?_⟩,
    fun t0 v0 h => ?_,
    fun h => ⟨fun v hv => ?_, fun err herr => ?_⟩,
    fun v => ?_⟩
  · simp [getCachedEmbedding, h, hv]
  · simp [getCachedEmbedding, h, herr]
  · simp [getCachedEmbedding, h]
  · simp [getCachedEmbedding, h, hv]
  · simp [getCachedEmbedding, h, herr]
  · simp [getCachedEmbedding, cacheLookup_cacheWrite]

/-- Witness for C5 at category `"words"` and text `"hello"`: the first call
invokes the provider and writes the file; the second call (under a provider
that would now answer differently) returns the stored vector without
invoking the provider; a corrupt stored entry behaves as a miss and is
rewritten. -/
theorem claim_C5_witness :
    (getCachedEmbedding (fun s => s) (fun _ => .ok [1]) [] "hello" "words" =
      .ok ⟨[1], [(("words", "hello"), .valid "hello" [1])], true⟩) ∧
    (getCachedEmbedding (fun s => s) (fun _ => .ok [2])
        [(("words", "hello"), .valid "hello" [1])] "hello" "words" =
      .ok ⟨[1], [(("words", "hello"), .valid "hello" [1])], false⟩) ∧
    (getCachedEmbedding (fun s => s) (fun _ => .ok [3])
        [(("words", "hello"), .corrupt)] "hello" "words" =
      .ok ⟨[3], (("words", "hello"), .valid "hello" [3]) ::
        [(("words", "hello"), .corrupt)], true⟩) := by
  refine ⟨?_, ?_, ?_⟩
  · exact ((claim_C5_embedding_cache (fun s => s) (fun _ => .ok [1]) []
      "hello" "words").1 rfl).1 [1] rfl
  · exact (claim_C5_embedding_cache (fun s => s) (fun _ => .ok [2])
      [(("words", "hello"), .valid "hello" [1])] "hello" "words").2.1
      "hello" [1] rfl
  · exact ((claim_C5_embedding_cache (fun s => s) (fun _ => .ok [3])
      [(("words", "hello"), .corrupt)] "hello" "words").2.2.1 rfl).1 [3] rfl

/-- `filter(Boolean)` agrees with "all non-null" on a list that contains no
empty-string entries. -/
theorem filterMap_truthyStr_eq_id (l : List (Option String))
    (h : ∀ x ∈ l, x ≠ some "") : l.filterMap truthyStr = l.filterMap id := by
  induction l with
  | nil => rfl
  | cons a t ih =>
    have ha := h a (List.mem_cons_self a t)
    have ht := ih (fun x hx => h x (List.mem_cons_of_mem a hx))
    cases a with
    | none => simpa [truthyStr] using ht
    | some s =>
      have hs : s ≠ "" := fun hs => ha (by rw [hs])
      simp [truthyStr, hs, ht]

/-- Formatting touches no gloss. -/
theorem map_gloss_format (e : Entry) :
    (formatEntrySources e).senses.map Sense.gloss = e.senses.map Sense.gloss := by
  simp only [formatEntrySources, List.map_map]
  exact List.map_congr_left (fun s _ => rfl)

/-- Formatting touches no definition. -/
theorem map_definition_format (e : Entry) :
    (formatEntrySources e).senses.map Sense.definition =
      e.senses.map Sense.definition := by
  simp only [formatEntrySources, List.map_map]
  exact List.map_congr_left (fun s _ => rfl)

/-- The source-formatting pass touches only example `source`/`note` fields,
so the word text-to-embed is unchanged by it. -/
theorem textToEmbedWord_formatEntrySources (e : Entry) :
    textToEmbedWord (formatEntrySources e) = textToEmbedWord e := by
  unfold textToEmbedWord
  rw [map_gloss_format, map_definition_format]
  rfl

/-- Claim C1: for every word entry processed by `uploadWords`, if a
prior-snapshot record with the same id exists, has a non-null embedding and
an identical `dateModified`, that embedding is attached verbatim with no
provider call and no cache lookup (the cache state is untouched); otherwise
the text to embed is the lexical form followed by all non-null glosses and
all non-null definitions joined by single spaces, resolved through
`getCachedEmbedding` under category `"words"`.  The no-empty-string side
condition discharges `filter(Boolean)` against "non-null": extraction never
produces an empty-string gloss or definition. -/
theorem claim_C1_word_embedding_reuse (sha256hex : String → String)
    (provider : Provider) (m : WordsMap) (cache : Cache) (e : Entry) :
    (∀ p b, m.lookup e.id = some p → p.embedding = some b →
      p.dateModified = e.dateModified →
      processWordEntry sha256hex provider m cache e =
        ⟨⟨formatEntrySources e, some b⟩, true, false, 0, 0, cache, []⟩) ∧
    (wordReuseHit m (formatEntrySources e) = none →
      (∀ s ∈ e.senses, s.gloss ≠ some "" ∧ s.definition ≠ some "") →
      processWordEntry sha256hex provider m cache e =
        computeWordStep sha256hex provider cache (formatEntrySources e) ∧
      textToEmbedWord (formatEntrySources e) =
        String.intercalate " "
          (((jsOrOpt e.word e.lexical_unit).getD "") ::
            (e.senses.filterMap Sense.gloss ++
             e.senses.filterMap Sense.definition))) := by
  constructor
  · intro p b hp hb hd
    have hid : (formatEntrySources e).id = e.id := rfl
    have hid2 : (formatEntrySources e).dateModified = e.dateModified := rfl
    simp [processWordEntry, wordReuseHit, hid, hid2, hp, hb, hd]
  · intro hmiss hglosses
    constructor
    · simp [processWordEntry, hmiss]
    · rw [textToEmbedWord_formatEntrySources]
      have hg : (e.senses.map Sense.gloss).filterMap truthyStr =
          (e.senses.map Sense.gloss).filterMap id := by
        refine filterMap_truthyStr_eq_id _ (fun x hx => ?_)
        rcases List.mem_map.mp hx with ⟨s, hs, rfl⟩
        exact (hglosses s hs).1
      have hd : (e.senses.map Sense.definition).filterMap truthyStr =
          (e.senses.map Sense.definition).filterMap id := by
        refine filterMap_truthyStr_eq_id _ (fun x hx => ?_)
        rcases List.mem_map.mp hx with ⟨s, hs, rfl⟩
        exact (hglosses s hs).2
      simp [textToEmbedWord, hg, hd, List.filterMap_map]

/-- Witness for C1: a prior record with the same id, a non-null embedding
and equal `dateModified` is reused verbatim with no provider call and no
cache lookup; without a prior record the same entry is resolved through the
cache at the text `"dog a dog"`. -/
theorem claim_C1_witness :
    (processWordEntry (fun s => s) (fun _ => .ok [9])
        [("w1", ⟨some "2024-01-01", some ⟨[7]⟩⟩)] []
        ⟨"w1", none, some "2024-01-01", none, some "dog", some "dog", [],
          [⟨none, none, some "a dog", none, []⟩]⟩ =
      ⟨⟨formatEntrySources ⟨"w1", none, some "2024-01-01", none, some "dog",
          some "dog", [], [⟨none, none, some "a dog", none, []⟩]⟩,
        some ⟨[7]⟩⟩, true, false, 0, 0, [], []⟩) ∧
    (processWordEntry (fun s => s) (fun _ => .ok [9]) [] []
        ⟨"w1", none, some "2024-01-01", none, some "dog", some "dog", [],
          [⟨none, none, some "a dog", none, []⟩]⟩ =
      computeWordStep (fun s => s) (fun _ => .ok [9]) []
        (formatEntrySources ⟨"w1", none, some "2024-01-01", none, some "dog",
          some "dog", [], [⟨none, none, some "a dog", none, []⟩]⟩) ∧
     textToEmbedWord (formatEntrySources ⟨"w1", none, some "2024-01-01", none,
        some "dog", some "dog", [], [⟨none, none, some "a dog", none, []⟩]⟩) =
      "dog a dog") := by
  constructor
  · exact (claim_C1_word_embedding_reuse (fun s => s) (fun _ => .ok [9])
      [("w1", ⟨some "2024-01-01", some ⟨[7]⟩⟩)] []
      ⟨"w1", none, some "2024-01-01", none, some "dog", some "dog", [],
        [⟨none, none, some "a dog", none, []⟩]⟩).1
      ⟨some "2024-01-01", some ⟨[7]⟩⟩ ⟨[7]⟩ rfl rfl rfl
  · have h := (claim_C1_word_embedding_reuse (fun s => s) (fun _ => .ok [9])
      [] []
      ⟨"w1", none, some "2024-01-01", none, some "dog", some "dog", [],
        [⟨none, none, some "a dog", none, []⟩]⟩).2 rfl (by decide)
    exact ⟨h.1, h.2.trans (by decide)⟩

/-- Claim C4: invoking the rollback entry point with a timestamp argument —
an argument that is not an all-digit backup index, and hence is resolved as
a timestamp — that matches no discovered snapshot timestamp reports an
error, exits with code 1, and performs no mutation of the store or of the
backup directory (this also covers the empty-backup-directory early exit). -/
theorem claim_C4_rollback_unknown_timestamp {α : Type} (disk : Disk α)
    (db : Store α) (arg nowTs : String)
    (hidx : isIndexArg arg = false)
    (hmiss : ∀ b ∈ listBackupFiles (disk.map (·.1)), b.timestamp ≠ arg) :
    rollbackMain disk db arg nowTs = ⟨1, db, disk, true, []⟩ := by
  unfold rollbackMain
  by_cases hempty : (listBackupFiles (disk.map (·.1))).isEmpty = true
  · simp [hempty]
  · have hany : (listBackupFiles (disk.map (·.1))).any
        (fun b => b.timestamp == arg) = false := by
      rw [List.any_eq_false]
      intro b hb
      simp [hmiss b hb]
    simp [hempty, hidx, hany]

/-- Witness for C4: a directory holding one snapshot `T1`; asking for the
timestamp `T9` errors out with the store and directory untouched. -/
theorem claim_C4_witness :
    rollbackMain [("words_T1.json", ["d1"])] (⟨["x"], ["y"]⟩ : Store String)
      "T9" "N" =
      ⟨1, ⟨["x"], ["y"]⟩, [("words_T1.json", ["d1"])], true, []⟩ :=
  claim_C4_rollback_unknown_timestamp [("words_T1.json", ["d1"])]
    ⟨["x"], ["y"]⟩ "T9" "N" (by decide) (by decide)

/-- Claim C9 (implicit): for every accepted restore timestamp,
`restoreFromBackup` deletes all documents from both collections first,
unconditionally — before checking whether the snapshot's files exist — and
when the snapshot covers only the sentences collection, the words
collection is left empty after the restore, with only a missing-file
warning logged for it. -/
theorem claim_C9_restore_clears_before_checking {α : Type} (disk : Disk α)
    (db : Store α) (ts : String) :
    (restoreFromBackup disk db ts).trace.head? =
      some (.clearedCollections db.words.length db.sentences.length) ∧
    (∀ ds, disk.lookup (wordsFileName ts) = none →
      disk.lookup (sentencesFileName ts) = some ds →
      (restoreFromBackup disk db ts).store = ⟨[], ds⟩ ∧
      (restoreFromBackup disk db ts).trace =
        [.clearedCollections db.words.length db.sentences.length,
         .warnedWordsFileMissing, .restoredSentences ds]) := by
  constructor
  · rfl
  · intro ds h1 h2
    constructor <;> simp [restoreFromBackup, h1, h2]

/-- Witness for C9: a snapshot `T1` covering only sentences; restoring it
into a store holding one word and two sentences clears both collections and
leaves the words collection empty, with the missing-words-file warning. -/
theorem claim_C9_witness :
    (restoreFromBackup [("sentences_T1.json", ["s1"])]
        (⟨["w"], ["x", "y"]⟩ : Store String) "T1").trace.head? =
      some (.clearedCollections 1 2) ∧
    (restoreFromBackup [("sentences_T1.json", ["s1"])]
        (⟨["w"], ["x", "y"]⟩ : Store String) "T1").store = ⟨[], ["s1"]⟩ ∧
    (restoreFromBackup [("sentences_T1.json", ["s1"])]
        (⟨["w"], ["x", "y"]⟩ : Store String) "T1").trace =
      [.clearedCollections 1 2, .warnedWordsFileMissing,
       .restoredSentences ["s1"]] := by
  have h := claim_C9_restore_clears_before_checking
    [("sentences_T1.json", ["s1"])] (⟨["w"], ["x", "y"]⟩ : Store String) "T1"
  exact ⟨h.1, (h.2 ["s1"] (by decide) (by decide)).1,
    (h.2 ["s1"] (by decide) (by decide)).2⟩

/-- Counterexample to C2 as stated: snapshot one word and one sentence,
drop both collections, then roll back to that snapshot.  The restore
succeeds and returns exactly the original documents, but because the
(dropped) collections are empty at rollback time, `saveCurrentState` writes
nothing: the backup directory after the run holds exactly the two original
snapshot files and no file labeled `before-rollback` at all, refuting the
claim's "a fresh safety snapshot labeled before-rollback is always written
to disk". -/
theorem claim_C2_counterexample :
    (rollbackMain
        (backupCollections ([] : Disk String) ⟨["w1"], ["s1"]⟩
          "2024-01-01_12-00-00")
        ⟨[], []⟩ "2024-01-01_12-00-00" "2024-01-02_09-30-00").exitCode = 0 ∧
    (rollbackMain
        (backupCollections ([] : Disk String) ⟨["w1"], ["s1"]⟩
          "2024-01-01_12-00-00")
        ⟨[], []⟩ "2024-01-01_12-00-00" "2024-01-02_09-30-00").store =
      ⟨["w1"], ["s1"]⟩ ∧
    (rollbackMain
        (backupCollections ([] : Disk String) ⟨["w1"], ["s1"]⟩
          "2024-01-01_12-00-00")
        ⟨[], []⟩ "2024-01-01_12-00-00" "2024-01-02_09-30-00").disk.map
      (fun f => f.1) =
      ["sentences_2024-01-01_12-00-00.json", "words_2024-01-01_12-00-00.json"] := by
  refine ⟨?_, ?_, ?_⟩ <;> rfl

/-- Claim C2 amended: after the backup → drop → restore round trip over a
snapshot of N ≥ 1 word documents and M ≥ 1 sentence documents, the restore
succeeds and the collections contain exactly the original documents; the
pre-restore safety step always runs before the destructive clear, but it
writes a `before-rollback` file per collection only when that collection is
currently non-empty — after the drop both are empty, so no safety file is
written and the backup directory is unchanged. -/
theorem claim_C2_roundtrip_amended {α : Type} (ws ss : List α)
    (hw : ws ≠ []) (hs : ss ≠ []) :
    rollbackMain
        (backupCollections ([] : Disk α) ⟨ws, ss⟩ "2024-01-01_12-00-00")
        ⟨[], []⟩ "2024-01-01_12-00-00" "2024-01-02_09-30-00" =
      ⟨0, ⟨ws, ss⟩,
        backupCollections ([] : Disk α) ⟨ws, ss⟩ "2024-01-01_12-00-00",
        false,
        [.clearedCollections 0 0, .restoredWords ws,
         .restoredSentences ss]⟩ := by
  have hw' : ws.isEmpty = false := by
    simpa [List.isEmpty_iff] using hw
  have hs' : ss.isEmpty = false := by
    simpa [List.isEmpty_iff] using hs
  have hdisk : backupCollections ([] : Disk α) ⟨ws, ss⟩ "2024-01-01_12-00-00" =
      [(sentencesFileName "2024-01-01_12-00-00", ss),
       (wordsFileName "2024-01-01_12-00-00", ws)] := by
    simp [backupCollections, hw', hs']
  rw [hdisk]
  have hlist : listBackupFiles [sentencesFileName "2024-01-01_12-00-00",
      wordsFileName "2024-01-01_12-00-00"] =
      [⟨"2024-01-01_12-00-00", true, true⟩] := rfl
  have hbs : (sentencesFileName "2024-01-01_12-00-00" ==
      wordsFileName "2024-01-01_12-00-00") = false := rfl
  have hbw : (wordsFileName "2024-01-01_12-00-00" ==
      sentencesFileName "2024-01-01_12-00-00") = false := rfl
  simp [rollbackMain, hlist, isIndexArg, saveCurrentState,
    restoreFromBackup, List.lookup, hbs, hbw]

/-- Witness for C2 (amended): the round trip at N = M = 1. -/
theorem claim_C2_witness :
    rollbackMain
        (backupCollections ([] : Disk String) ⟨["wd"], ["sd"]⟩
          "2024-01-01_12-00-00")
        ⟨[], []⟩ "2024-01-01_12-00-00" "2024-01-02_09-30-00" =
      ⟨0, ⟨["wd"], ["sd"]⟩,
        backupCollections ([] : Disk String) ⟨["wd"], ["sd"]⟩
          "2024-01-01_12-00-00",
        false,
        [.clearedCollections 0 0, .restoredWords ["wd"],
         .restoredSentences ["sd"]]⟩ :=
  claim_C2_roundtrip_amended ["wd"] ["sd"] (by decide) (by decide)

/-- The compute path never marks a word step as reused. -/
theorem computeWordStep_not_reused (sha256hex : String → String)
    (provider : Provider) (cache : Cache) (e : Entry) :
    (computeWordStep sha256hex provider cache e).reused = false := by
  unfold computeWordStep
  cases h : getCachedEmbedding sha256hex provider cache (textToEmbedWord e)
    "words" <;> simp [h]

/-- With an empty prior-snapshot map every word entry takes the compute
path. -/
theorem processWordEntry_empty_map (sha256hex : String → String)
    (provider : Provider) (cache : Cache) (e : Entry) :
    processWordEntry sha256hex provider [] cache e =
      computeWordStep sha256hex provider cache (formatEntrySources e) := rfl

/-- The compute path never marks a sentence step as reused. -/
theorem computeSentenceStep_not_reused (sha256hex : String → String)
    (provider : Provider) (cache : Cache) (s : SentenceRec) :
    (computeSentenceStep sha256hex provider cache s).reused = false := by
  unfold computeSentenceStep
  cases h : getCachedEmbedding sha256hex provider cache
    (s.text ++ " " ++ s.translation) "sentences" <;> simp [h]

/-- With an empty prior-snapshot map every sentence record takes the
compute path. -/
theorem processSentenceRec_empty_map (sha256hex : String → String)
    (provider : Provider) (cache : Cache) (s : SentenceRec) :
    processSentenceRec sha256hex provider [] cache s =
      computeSentenceStep sha256hex provider cache s := rfl

/-- Folding word steps over an empty prior map never increments the reused
counter. -/
theorem foldWords_empty_map_reused (sha256hex : String → String)
    (provider : Provider) (entries : List Entry) (acc : UploadWordsResult) :
    (entries.foldl (foldWordStep sha256hex provider []) acc).reusedEmbeddings =
      acc.reusedEmbeddings := by
  induction entries generalizing acc with
  | nil => rfl
  | cons e t ih =>
    rw [List.foldl_cons, ih]
    simp [foldWordStep, processWordEntry_empty_map,
      computeWordStep_not_reused]

/-- Folding sentence steps over an empty prior map never increments the
reused counter. -/
theorem foldSentences_empty_map_reused (sha256hex : String → String)
    (provider : Provider) (ss : List SentenceRec)
    (acc : UploadSentencesResult) :
    (ss.foldl (foldSentenceStep sha256hex provider []) acc).reusedEmbeddings =
      acc.reusedEmbeddings := by
  induction ss generalizing acc with
  | nil => rfl
  | cons s t ih =>
    rw [List.foldl_cons, ih]
    simp [foldSentenceStep, processSentenceRec_empty_map,
      computeSentenceStep_not_reused]

/-- Claim C10 (implicit): the prior-snapshot lookup maps are populated only
inside the backup step, so a `--no-backup` run uses empty maps for both
phases: every word and sentence embedding is resolved through the
cache/provider compute path and both reused counters are zero. -/
theorem claim_C10_no_backup_no_reuse (sha256hex : String → String)
    (provider : Provider) (dbWords : List DbWordDoc)
    (dbSentences : List DbSentenceDoc) (entries : List Entry)
    (cache : Cache) :
    (mainUploadFlow sha256hex provider false dbWords dbSentences entries
        cache).words =
      uploadWords sha256hex provider entries [] cache ∧
    (mainUploadFlow sha256hex provider false dbWords dbSentences entries
        cache).sentences =
      uploadSentences sha256hex provider (entries.map formatEntrySources) []
        (uploadWords sha256hex provider entries [] cache).cache ∧
    (mainUploadFlow sha256hex provider false dbWords dbSentences entries
        cache).words.reusedEmbeddings = 0 ∧
    (mainUploadFlow sha256hex provider false dbWords dbSentences entries
        cache).sentences.reusedEmbeddings = 0 ∧
    (∀ (cache0 : Cache) (e : Entry),
      processWordEntry sha256hex provider [] cache0 e =
        computeWordStep sha256hex provider cache0 (formatEntrySources e)) ∧
    (∀ (cache0 : Cache) (s : SentenceRec),
      processSentenceRec sha256hex provider [] cache0 s =
        computeSentenceStep sha256hex provider cache0 s) := by
  refine ⟨rfl, rfl, ?_, ?_,
    fun cache0 e => processWordEntry_empty_map sha256hex provider cache0 e,
    fun cache0 s => processSentenceRec_empty_map sha256hex provider cache0 s⟩
  · exact foldWords_empty_map_reused sha256hex provider entries _
  · exact foldSentences_empty_map_reused sha256hex provider _ _

/-- Counterexample to C6 as stated: run the sentence phase over one entry
whose single example has form `"abc"`, with a provider that fails with
`"boom"`.  The batch continues and the record is persisted without an
embedding, but the single warning emitted carries no record id at all
(`recordId = none`): the sentence-side `console.error` interpolates only
`err.message`, not the record's id, refuting "the failure is logged with
that record's id" for sentence records. -/
theorem claim_C6_counterexample :
    ((uploadSentences (fun s => s) (fun _ => .error "boom")
        [⟨"e1", none, none, none, some "w", some "w", [],
          [⟨none, none, some "dog", none,
            [⟨none, some "abc", some "tr", none⟩]⟩]⟩] [] []).warnings.map
      LogEvent.recordId = [none]) ∧
    ((uploadSentences (fun s => s) (fun _ => .error "boom")
        [⟨"e1", none, none, none, some "w", some "w", [],
          [⟨none, none, some "dog", none,
            [⟨none, some "abc", some "tr", none⟩]⟩]⟩] [] []).documents.map
      SentenceDoc.embedding = [none]) ∧
    ((uploadSentences (fun s => s) (fun _ => .error "boom")
        [⟨"e1", none, none, none, some "w", some "w", [],
          [⟨none, none, some "dog", none,
            [⟨none, some "abc", some "tr", none⟩]⟩]⟩] [] []).warnings =
      [.warnSentenceEmbedding "boom"]) := by
  refine ⟨?_, ?_, ?_⟩ <;> rfl

/-- One word step appends exactly one document, whatever happens. -/
theorem foldWords_length (sha256hex : String → String) (provider : Provider)
    (m : WordsMap) (entries : List Entry) (acc : UploadWordsResult) :
    (entries.foldl (foldWordStep sha256hex provider m) acc).documents.length =
      acc.documents.length + entries.length := by
  induction entries generalizing acc with
  | nil => rfl
  | cons e t ih =>
    rw [List.foldl_cons, ih]
    simp [foldWordStep]
    omega

/-- One sentence step appends exactly one document, whatever happens. -/
theorem foldSentences_length (sha256hex : String → String)
    (provider : Provider) (m : SentencesMap) (ss : List SentenceRec)
    (acc : UploadSentencesResult) :
    (ss.foldl (foldSentenceStep sha256hex provider m) acc).documents.length =
      acc.documents.length + ss.length := by
  induction ss generalizing acc with
  | nil => rfl
  | cons s t ih =>
    rw [List.foldl_cons, ih]
    simp [foldSentenceStep]
    omega

/-- Claim C6 amended: a per-record embedding-provider failure is non-fatal
in both phases — the record is persisted without an embedding and the batch
continues (one inserted document per input record, unconditionally) — and
the warning logged for a word names the entry's id, while the warning
logged for a sentence carries only the provider's error message, not the
record's id. -/
theorem claim_C6_per_record_failure (sha256hex : String → String)
    (provider : Provider) (wm : WordsMap) (sm : SentencesMap) (cache : Cache)
    (e : Entry) (s : SentenceRec) (msg msg2 : String) :
    (wordReuseHit wm (formatEntrySources e) = none →
     cacheLookup cache
       ("words", sha256hex (textToEmbedWord (formatEntrySources e))) = none →
     provider (textToEmbedWord (formatEntrySources e)) = .error msg →
     processWordEntry sha256hex provider wm cache e =
       ⟨⟨formatEntrySources e, none⟩, false, false, 1, 1, cache,
        [.warnWordEmbedding e.id msg]⟩) ∧
    (sentenceReuseHit sm s = none →
     cacheLookup cache
       ("sentences", sha256hex (s.text ++ " " ++ s.translation)) = none →
     provider (s.text ++ " " ++ s.translation) = .error msg2 →
     processSentenceRec sha256hex provider sm cache s =
       ⟨⟨s, none⟩, false, false, 1, 1, cache,
        [.warnSentenceEmbedding msg2]⟩) ∧
    (∀ (entries : List Entry) (m : WordsMap) (c : Cache),
      (uploadWords sha256hex provider entries m c).documents.length =
        entries.length) ∧
    (∀ (entries : List Entry) (m : SentencesMap) (c : Cache),
      (uploadSentences sha256hex provider entries m c).documents.length =
        (deriveSentences sha256hex entries).length) := by
  refine ⟨fun hmiss hcache herr => ?_, fun hmiss hcache herr => ?_,
    fun entries m c => ?_, fun entries m c => ?_⟩
  · simp only [processWordEntry, hmiss, computeWordStep, getCachedEmbedding,
      hcache, herr]
    rfl
  · simp [processSentenceRec, hmiss, computeSentenceStep, getCachedEmbedding,
      hcache, herr]
  · simpa using foldWords_length sha256hex provider m entries
      ⟨[], 0, 0, 0, 0, c, []⟩
  · simpa using foldSentences_length sha256hex provider m
      (deriveSentences sha256hex entries) ⟨[], 0, 0, 0, 0, c, []⟩

/-- Witness for C6 (amended): both failure shapes at concrete records. -/
theorem claim_C6_witness :
    (processWordEntry (fun t => t) (fun _ => .error "boom") [] []
        ⟨"e1", none, none, none, some "w", some "w", [],
          [⟨none, none, some "dog", none, []⟩]⟩ =
      ⟨⟨formatEntrySources ⟨"e1", none, none, none, some "w", some "w", [],
          [⟨none, none, some "dog", none, []⟩]⟩, none⟩,
        false, false, 1, 1, [], [.warnWordEmbedding "e1" "boom"]⟩) ∧
    (processSentenceRec (fun t => t) (fun _ => .error "oops") [] []
        ⟨"h1", "abc", "abc", "tr", ["e1"], ""⟩ =
      ⟨⟨⟨"h1", "abc", "abc", "tr", ["e1"], ""⟩, none⟩,
        false, false, 1, 1, [], [.warnSentenceEmbedding "oops"]⟩) ∧
    (uploadWords (fun t => t) (fun _ => .error "boom")
        [⟨"e1", none, none, none, some "w", some "w", [],
          [⟨none, none, some "dog", none, []⟩]⟩] [] []).documents.length = 1 := by
  refine ⟨?_, ?_, ?_⟩
  · exact (claim_C6_per_record_failure (fun t => t) (fun _ => .error "boom")
      [] [] [] ⟨"e1", none, none, none, some "w", some "w", [],
        [⟨none, none, some "dog", none, []⟩]⟩
      ⟨"h1", "abc", "abc", "tr", ["e1"], ""⟩ "boom" "x").1 rfl rfl rfl
  · exact (claim_C6_per_record_failure (fun t => t) (fun _ => .error "oops")
      [] [] [] ⟨"e1", none, none, none, some "w", some "w", [],
        [⟨none, none, some "dog", none, []⟩]⟩
      ⟨"h1", "abc", "abc", "tr", ["e1"], ""⟩ "x" "oops").2.1 rfl rfl rfl
  · exact ((claim_C6_per_record_failure (fun t => t) (fun _ => .error "boom")
      [] [] [] ⟨"e1", none, none, none, some "w", some "w", [],
        [⟨none, none, some "dog", none, []⟩]⟩
      ⟨"h1", "abc", "abc", "tr", ["e1"], ""⟩ "boom" "x").2.2.1
      [⟨"e1", none, none, none, some "w", some "w", [],
        [⟨none, none, some "dog", none, []⟩]⟩] [] []).trans rfl

/-- The extractor's truthiness guard before a `.text` navigation is
redundant: a falsy node can only be the empty string, whose `.text` access
already yields null. -/
theorem jtruthy_guard_text (f : JVal) :
    (if jtruthy f then jOrNull ((jfirst f).bind (fun v => jget v "text"))
     else none) =
      jOrNull ((jfirst f).bind (fun v => jget v "text")) := by
  cases f with
  | jstr s =>
    by_cases hs : s = "" <;> simp [jtruthy, jfirst, jget, jOrNull, hs]
  | jarr xs => simp [jtruthy]
  | jobj fs => simp [jtruthy]

/-- The current extractor's `formText` equals the straight-line spec
navigation. -/
theorem extractFormText_spec (ex : JVal) :
    extractFormText ex = specFormText ex := by
  unfold extractFormText specFormText navFirst
  cases h : jget ex "form" with
  | none => rfl
  | some f => simp only [Option.some_bind, jtruthy_guard_text]

/-- The current extractor's `translationText`/`noteText` equals the
straight-line spec navigation. -/
theorem extractNestedFormText_spec (ex : JVal) (field : String) :
    extractNestedFormText ex field = specNestedFormText ex field := by
  unfold extractNestedFormText specNestedFormText navFirst
  cases h : jget ex field with
  | none => rfl
  | some t =>
    simp only [Option.some_bind]
    by_cases ht : jtruthy t
    · simp only [ht, if_true]
      cases h2 : (jfirst t).bind (fun v => jget v "form") with
      | none => rfl
      | some tf => simp only [Option.some_bind, jtruthy_guard_text]
    · have : t = .jstr "" := by
        cases t with
        | jstr s =>
          by_cases hs : s = ""
          · rw [hs]
          · exact absurd (by simp [jtruthy, hs]) ht
        | jarr xs => exact absurd (by simp [jtruthy]) ht
        | jobj fs => exact absurd (by simp [jtruthy]) ht
      subst this
      simp [jtruthy, jfirst, jget, jOrNull]

/-- Claim C7 amended: for every parsed example node, the current extractor
(`scripts/upload.js`) obtains `form`, `translation` and `note` by taking the
first element whenever the field is a sequence, following the nested
`.form.text`-style path, and yielding null at any missing step; extraction
is total, so no missing optional field can make it fail.  (The legacy
variant instead yields null whenever such a field is a sequence — see the
counterexample.) -/
theorem claim_C7_extractor_defensive (ex : JVal) :
    extractExampleJ ex =
      ⟨jOrNull ((jget ex "$").bind (fun a => jget a "source")),
       specFormText ex, specNestedFormText ex "translation",
       specNestedFormText ex "note"⟩ := by
  unfold extractExampleJ
  rw [extractFormText_spec, extractNestedFormText_spec,
    extractNestedFormText_spec]

/-- Counterexample to C7 as stated: on an example whose `form` is a
sequence `[{text: "hi"}]`, the current extractor takes the first element
and yields `"hi"`, but the legacy variant's plain `example.form?.text`
yields null instead of the first element's text. -/
theorem claim_C7_counterexample :
    (extractExampleLegacyJ
      (.jobj [("form", .jarr [.jobj [("text", .jstr "hi")]])])).form = none ∧
    (extractExampleJ
      (.jobj [("form", .jarr [.jobj [("text", .jstr "hi")]])])).form =
      some (.jstr "hi") :=
  ⟨rfl, rfl⟩

/-- The word-ids update of one derivation step never changes a record's
key. -/
theorem updFst (t i : String) (p : String × SentenceRec) :
    (if p.1 == t && !(p.2.word_ids.contains i) then
      (p.1, { p.2 with word_ids := p.2.word_ids ++ [i] }) else p).1 = p.1 := by
  split <;> rfl

/-- The word-ids update of one derivation step never changes a record's
text. -/
theorem updText (t i : String) (p : String × SentenceRec) :
    (if p.1 == t && !(p.2.word_ids.contains i) then
      (p.1, { p.2 with word_ids := p.2.word_ids ++ [i] }) else p).2.text =
      p.2.text := by
  split <;> rfl

/-- The word-ids update appends the id exactly on the matching record when
the id is not yet present. -/
theorem updIds (t i : String) (p : String × SentenceRec) :
    (if p.1 == t && !(p.2.word_ids.contains i) then
      (p.1, { p.2 with word_ids := p.2.word_ids ++ [i] }) else p).2.word_ids =
      if p.1 = t ∧ i ∉ p.2.word_ids then p.2.word_ids ++ [i]
      else p.2.word_ids := by
  by_cases h1 : p.1 = t <;> by_cases h2 : i ∈ p.2.word_ids <;>
    simp [h1, h2]



/-- One derivation step preserves the sentence-derivation invariant. -/
theorem sentenceStep_inv (sha : String → String) (acc : SentencesAcc)
    (done : List (String × ExampleRec)) (c : String × ExampleRec)
    (h : SentInv acc done) : SentInv (sentenceStep sha acc c) (done ++ [c]) := by
  obtain ⟨hnd, hper, hkey⟩ := h
  obtain ⟨cid, cex⟩ := c
  by_cases ht : sentenceTextOf cex = ""
  · -- empty text: the contribution is skipped
    have hstep : sentenceStep sha acc (cid, cex) = acc := by
      simp [sentenceStep, ht]
    rw [hstep]
    refine ⟨hnd, ?_, ?_⟩
    · intro p hp
      obtain ⟨htext, hwnd, hmem⟩ := hper p hp
      have hne : p.1 ≠ "" := ((hkey p.1).mp ⟨p, hp, rfl⟩).1
      refine ⟨htext, hwnd, fun i => ?_⟩
      rw [hmem i]
      constructor
      · rintro ⟨c', hc', hj, htc⟩
        exact ⟨c', List.mem_append_left _ hc', hj, htc⟩
      · rintro ⟨c', hc', hj, htc⟩
        rcases List.mem_append.mp hc' with hc' | hc'
        · exact ⟨c', hc', hj, htc⟩
        · rcases List.mem_singleton.mp hc' with rfl
          exact absurd (by rw [← htc, ht]) (Ne.symm hne)
    · intro t'
      rw [hkey t']
      constructor
      · rintro ⟨hne, c', hc', htc⟩
        exact ⟨hne, c', List.mem_append_left _ hc', htc⟩
      · rintro ⟨hne, c', hc', htc⟩
        rcases List.mem_append.mp hc' with hc' | hc'
        · exact ⟨hne, c', hc', htc⟩
        · rcases List.mem_singleton.mp hc' with rfl
          exact absurd (ht.symm.trans htc).symm hne
  · by_cases hany : acc.any (fun p => p.1 == sentenceTextOf cex) = true
    · -- the text already has a record: only the word-ids update runs
      have hstep : sentenceStep sha acc (cid, cex) =
          acc.map (fun p =>
            if p.1 == sentenceTextOf cex && !(p.2.word_ids.contains cid) then
              (p.1, { p.2 with word_ids := p.2.word_ids ++ [cid] })
            else p) := by
        simp [sentenceStep, ht, hany]
      rw [hstep]
      refine ⟨?_, ?_, ?_⟩
      · rw [List.map_map]
        have heq : acc.map ((fun p : String × SentenceRec => p.1) ∘
            (fun p => if p.1 == sentenceTextOf cex &&
                !(p.2.word_ids.contains cid) then
              (p.1, { p.2 with word_ids := p.2.word_ids ++ [cid] })
            else p)) = acc.map Prod.fst :=
          List.map_congr_left (fun p _ => updFst (sentenceTextOf cex) cid p)
        rw [heq]
        exact hnd
      · intro p' hp'
        rcases List.mem_map.mp hp' with ⟨p, hp, rfl⟩
        obtain ⟨htext, hwnd, hmem⟩ := hper p hp
        refine ⟨?_, ?_, ?_⟩
        · rw [updText, updFst, htext]
        · rw [updIds]
          by_cases hcond : p.1 = sentenceTextOf cex ∧ cid ∉ p.2.word_ids
          · rw [if_pos hcond]
            simp [List.nodup_append, hwnd, hcond.2]
          · rw [if_neg hcond]
            exact hwnd
        · intro j
          rw [updIds, updFst]
          by_cases h1 : p.1 = sentenceTextOf cex
          · by_cases h2 : cid ∈ p.2.word_ids
            · rw [if_neg (by tauto)]
              rw [hmem j]
              constructor
              · rintro ⟨c', hc', hj, htc⟩
                exact ⟨c', List.mem_append_left _ hc', hj, htc⟩
              · rintro ⟨c', hc', hj, htc⟩
                rcases List.mem_append.mp hc' with hc' | hc'
                · exact ⟨c', hc', hj, htc⟩
                · rcases List.mem_singleton.mp hc' with rfl
                  subst hj
                  exact (hmem _).mp h2
            · rw [if_pos ⟨h1, h2⟩]
              simp only [List.mem_append, List.mem_singleton]
              constructor
              · rintro (hj | hj2)
                · rcases (hmem j).mp hj with ⟨c', hc', hje, htc⟩
                  exact ⟨c', Or.inl hc', hje, htc⟩
                · exact ⟨(cid, cex), Or.inr rfl, hj2.symm, h1.symm⟩
              · rintro ⟨c', hc', hje, htc⟩
                rcases hc' with hc' | rfl
                · exact Or.inl ((hmem j).mpr ⟨c', hc', hje, htc⟩)
                · exact Or.inr hje.symm
          · rw [if_neg (by tauto)]
            rw [hmem j]
            constructor
            · rintro ⟨c', hc', hj, htc⟩
              exact ⟨c', List.mem_append_left _ hc', hj, htc⟩
            · rintro ⟨c', hc', hj, htc⟩
              rcases List.mem_append.mp hc' with hc' | hc'
              · exact ⟨c', hc', hj, htc⟩
              · rcases List.mem_singleton.mp hc' with rfl
                exact absurd htc.symm h1
      · intro t'
        constructor
        · rintro ⟨p', hp', rfl⟩
          rcases List.mem_map.mp hp' with ⟨p, hp, rfl⟩
          rw [updFst]
          have hk := (hkey p.1).mp ⟨p, hp, rfl⟩
          rcases hk.2 with ⟨c', hc', htc⟩
          exact ⟨hk.1, c', List.mem_append_left _ hc', htc⟩
        · rintro ⟨hne, c', hc', htc⟩
          rcases List.mem_append.mp hc' with hc' | hc'
          · rcases (hkey t').mpr ⟨hne, c', hc', htc⟩ with ⟨p, hp, rfl⟩
            exact ⟨_, List.mem_map_of_mem _ hp, updFst _ _ _⟩
          · rcases List.mem_singleton.mp hc' with rfl
            rcases List.any_eq_true.mp hany with ⟨p, hp, hpt⟩
            have hpt' : p.1 = sentenceTextOf cex := by simpa using hpt
            exact ⟨_, List.mem_map_of_mem _ hp,
              (updFst _ _ _).trans (hpt'.trans htc)⟩
    · -- no record for this text yet: create it, then the update adds cid
      have hany' : acc.any (fun p => p.1 == sentenceTextOf cex) = false :=
        Bool.eq_false_iff.mpr hany
      have hnotin : ∀ p ∈ acc, p.1 ≠ sentenceTextOf cex := by
        intro p hp hpt
        exact hany (List.any_eq_true.mpr ⟨p, hp, by simp [hpt]⟩)
      have hstep1 : sentenceStep sha acc (cid, cex) =
          (acc ++ [(sentenceTextOf cex,
            mkSentenceRec sha (sentenceTextOf cex) cex)]).map
            (fun p =>
              if p.1 == sentenceTextOf cex && !(p.2.word_ids.contains cid) then
                (p.1, { p.2 with word_ids := p.2.word_ids ++ [cid] })
              else p) := by
        simp [sentenceStep, ht, hany']
      have hstep : sentenceStep sha acc (cid, cex) =
          acc ++ [(sentenceTextOf cex,
            { mkSentenceRec sha (sentenceTextOf cex) cex with
              word_ids := [cid] })] := by
        rw [hstep1, List.map_append]
        congr 1
        · conv_rhs => rw [← List.map_id acc]
          exact List.map_congr_left (fun p hp => by simp [hnotin p hp])
        · simp [mkSentenceRec]
      rw [hstep]
      have hterm : (sentenceTextOf cex) ∉ acc.map Prod.fst := by
        intro hmem0
        rcases List.mem_map.mp hmem0 with ⟨p, hp, hpt⟩
        exact hnotin p hp hpt
      refine ⟨?_, ?_, ?_⟩
      · simp only [List.map_append, List.map_cons, List.map_nil]
        simp [List.nodup_append, hnd, hterm]
      · intro p' hp'
        rcases List.mem_append.mp hp' with hp' | hp'
        · obtain ⟨htext, hwnd, hmem⟩ := hper p' hp'
          refine ⟨htext, hwnd, fun j => ?_⟩
          rw [hmem j]
          constructor
          · rintro ⟨c', hc', hj, htc⟩
            exact ⟨c', List.mem_append_left _ hc', hj, htc⟩
          · rintro ⟨c', hc', hj, htc⟩
            rcases List.mem_append.mp hc' with hc' | hc'
            · exact ⟨c', hc', hj, htc⟩
            · rcases List.mem_singleton.mp hc' with rfl
              exact absurd htc.symm (hnotin p' hp')
        · rcases List.mem_singleton.mp hp' with rfl
          refine ⟨rfl, by simp, fun j => ?_⟩
          simp only [List.mem_singleton]
          constructor
          · intro hj2
            exact ⟨(cid, cex),
              List.mem_append_right _ (List.mem_singleton_self _),
              hj2.symm, rfl⟩
          · rintro ⟨c', hc', hj, htc⟩
            rcases List.mem_append.mp hc' with hc' | hc'
            · exfalso
              rcases (hkey (sentenceTextOf cex)).mpr
                ⟨ht, c', hc', htc⟩ with ⟨p, hp, hpt⟩
              exact hnotin p hp hpt
            · rcases List.mem_singleton.mp hc' with rfl
              exact hj.symm
      · intro t'
        constructor
        · rintro ⟨p', hp', rfl⟩
          rcases List.mem_append.mp hp' with hp' | hp'
          · have hk := (hkey p'.1).mp ⟨p', hp', rfl⟩
            rcases hk.2 with ⟨c', hc', htc⟩
            exact ⟨hk.1, c', List.mem_append_left _ hc', htc⟩
          · rcases List.mem_singleton.mp hp' with rfl
            exact ⟨ht, (cid, cex),
              List.mem_append_right _ (List.mem_singleton_self _), rfl⟩
        · rintro ⟨hne, c', hc', htc⟩
          rcases List.mem_append.mp hc' with hc' | hc'
          · rcases (hkey t').mpr ⟨hne, c', hc', htc⟩ with ⟨p, hp, rfl⟩
            exact ⟨p, List.mem_append_left _ hp, rfl⟩
          · rcases List.mem_singleton.mp hc' with rfl
            exact ⟨(sentenceTextOf cex,
              { mkSentenceRec sha (sentenceTextOf cex) cex with
                word_ids := [cid] }),
              List.mem_append_right _ (List.mem_singleton_self _), htc⟩

/-- The derivation fold preserves the invariant over any contribution
list. -/
theorem foldSentenceSteps_inv (sha : String → String) :
    ∀ (cs : List (String × ExampleRec)) (acc : SentencesAcc)
      (done : List (String × ExampleRec)), SentInv acc done →
      SentInv (cs.foldl (sentenceStep sha) acc) (done ++ cs) := by
  intro cs
  induction cs with
  | nil => intro acc done h; simpa using h
  | cons c cs' ih =>
    intro acc done h
    rw [List.foldl_cons]
    have h2 := ih (sentenceStep sha acc c) (done ++ [c])
      (sentenceStep_inv sha acc done c h)
    simpa [List.append_assoc] using h2

/-- The invariant holds initially. -/
theorem sentInv_nil : SentInv [] [] := by
  refine ⟨by simp, by simp, fun t => by simp⟩

/-- Membership in the flattened contribution list. -/
theorem mem_exampleContribs (entries : List Entry) (c : String × ExampleRec) :
    c ∈ exampleContribs entries ↔
      ∃ e ∈ entries, ∃ s ∈ e.senses, ∃ ex ∈ s.examples, c = (e.id, ex) := by
  unfold exampleContribs
  simp only [List.mem_flatMap, List.mem_map]
  constructor
  · rintro ⟨e, he, s, hs, ex, hex, rfl⟩
    exact ⟨e, he, s, hs, ex, hex, rfl⟩
  · rintro ⟨e, he, s, hs, ex, hex, rfl⟩
    exact ⟨e, he, s, hs, ex, hex, rfl⟩

/-- Claim C3 amended: in the current script's sentence derivation, exactly
one Sentence record is produced per distinct non-empty literal sentence
text — a text appears iff some entry's example carries it — and each
record's `word_ids` lists exactly the ids of the entries contributing that
text, with no duplicate even when the same entry contributes the same text
more than once.  (The legacy variant violates the no-duplicate part — see
the counterexample.) -/
theorem claim_C3_sentence_derivation (sha : String → String)
    (entries : List Entry) :
    ((deriveSentences sha entries).map SentenceRec.text).Nodup ∧
    (∀ t, t ∈ (deriveSentences sha entries).map SentenceRec.text ↔
      (t ≠ "" ∧ ∃ e ∈ entries, ∃ s ∈ e.senses, ∃ ex ∈ s.examples,
        sentenceTextOf ex = t)) ∧
    (∀ r ∈ deriveSentences sha entries, r.word_ids.Nodup ∧
      (∀ i, i ∈ r.word_ids ↔ ∃ e ∈ entries, e.id = i ∧
        ∃ s ∈ e.senses, ∃ ex ∈ s.examples, sentenceTextOf ex = r.text)) := by
  have hinv := foldSentenceSteps_inv sha (exampleContribs entries) [] []
    sentInv_nil
  rw [List.nil_append] at hinv
  obtain ⟨hnd, hper, hkey⟩ := hinv
  have hds : deriveSentences sha entries =
      ((exampleContribs entries).foldl (sentenceStep sha) []).map
        Prod.snd := rfl
  refine ⟨?_, ?_, ?_⟩
  · rw [hds, List.map_map]
    have heq : ((exampleContribs entries).foldl (sentenceStep sha) []).map
        (SentenceRec.text ∘ Prod.snd) =
        ((exampleContribs entries).foldl (sentenceStep sha) []).map
          Prod.fst :=
      List.map_congr_left (fun p hp => (hper p hp).1)
    rw [heq]
    exact hnd
  · intro t
    constructor
    · intro htmem
      rcases List.mem_map.mp htmem with ⟨r, hr, rfl⟩
      rw [hds] at hr
      rcases List.mem_map.mp hr with ⟨p, hp, rfl⟩
      obtain ⟨htext, _, _⟩ := hper p hp
      rw [show (Prod.snd p).text = p.1 from htext]
      have hk := (hkey p.1).mp ⟨p, hp, rfl⟩
      rcases hk.2 with ⟨c, hc, htc⟩
      rcases (mem_exampleContribs entries c).mp hc with
        ⟨e, he, s, hs, ex, hex, rfl⟩
      exact ⟨hk.1, e, he, s, hs, ex, hex, htc⟩
    · rintro ⟨hne, e, he, s, hs, ex, hex, htex⟩
      have hc : ((e.id, ex) : String × ExampleRec) ∈ exampleContribs entries :=
        (mem_exampleContribs entries _).mpr ⟨e, he, s, hs, ex, hex, rfl⟩
      rcases (hkey t).mpr ⟨hne, (e.id, ex), hc, htex⟩ with ⟨p, hp, rfl⟩
      refine List.mem_map.mpr ⟨p.2, ?_, (hper p hp).1⟩
      rw [hds]
      exact List.mem_map_of_mem _ hp
  · intro r hr
    rw [hds] at hr
    rcases List.mem_map.mp hr with ⟨p, hp, rfl⟩
    obtain ⟨htext, hwnd, hmem⟩ := hper p hp
    refine ⟨hwnd, fun i => ?_⟩
    rw [hmem i]
    constructor
    · rintro ⟨c, hc, hi, htc⟩
      rcases (mem_exampleContribs entries c).mp hc with
        ⟨e, he, s, hs, ex, hex, rfl⟩
      exact ⟨e, he, hi, s, hs, ex, hex, htc.trans htext.symm⟩
    · rintro ⟨e, he, hi, s, hs, ex, hex, htex⟩
      exact ⟨(e.id, ex),
        (mem_exampleContribs entries _).mpr ⟨e, he, s, hs, ex, hex, rfl⟩,
        hi, htex.trans htext⟩

/-- Counterexample to C3 as stated: in the legacy variant's derivation, one
entry whose sense carries the same example text `"abc"` twice yields a
single record whose `word_ids` contains `"e1"` twice — the legacy
`word_ids.push(entry.id)` has no duplicate guard. -/
theorem claim_C3_counterexample :
    ((deriveSentencesLegacy (fun s => s)
        [⟨"e1", none, none, none, some "w", some "w", [],
          [⟨none, none, some "g", none,
            [⟨none, some "abc", none, none⟩,
             ⟨none, some "abc", none, none⟩]⟩]⟩]).map
      LegacySentenceRec.word_ids = [["e1", "e1"]]) ∧
    ¬ (["e1", "e1"] : List String).Nodup := by
  exact ⟨rfl, by decide⟩

/-! ### Claim C8: whole-word replacement -/

/-- The scanner's fall-through equation: when the two-character match
pattern does not apply, one character is consumed. -/
theorem replNN_cons_generic (prev : Bool) (c : Char) (rest : List Char)
    (h : c ≠ 'n' ∨ ∀ r2 : List Char, rest ≠ 'n' :: r2) :
    replNN prev (c :: rest) = c :: replNN (isWordChar c) rest := by
  rw [replNN.eq_def]
  split
  · rename_i rest2 heq
    injection heq with h1 h2
    rcases h with h | h
    · exact absurd h1 h
    · exact absurd h2 (h rest2)
  · rename_i c2 rest2 hfn heq
    injection heq with h1 h2
    subst h1
    subst h2
    rfl
  · rename_i heq
    exact absurd heq (List.cons_ne_nil _ _)

theorem replNN_nn (prev : Bool) (rest2 : List Char) :
    replNN prev ('n' :: 'n' :: rest2) =
      if !prev && !headIsWordChar rest2 then normaNelson ++ replNN true rest2
      else 'n' :: replNN true ('n' :: rest2) := rfl

theorem runsReplace_cons_word (c : Char) (rest : List Char)
    (h : isWordChar c = true) :
    runsReplace (c :: rest) =
      (if c :: rest.takeWhile isWordChar = "nn".toList then normaNelson
       else c :: rest.takeWhile isWordChar) ++
        runsReplace (rest.dropWhile isWordChar) := by
  rw [runsReplace]
  simp [h]

theorem runsReplace_cons_nonword (c : Char) (rest : List Char)
    (h : isWordChar c = false) :
    runsReplace (c :: rest) = c :: runsReplace rest := by
  rw [runsReplace]
  simp [h]

theorem isWordChar_n : isWordChar 'n' = true := rfl

theorem takeWhile_of_headFalse (l : List Char) (h : headIsWordChar l = false) :
    l.takeWhile isWordChar = [] := by
  cases l with
  | nil => rfl
  | cons c rest => simp [headIsWordChar] at h; simp [List.takeWhile_cons, h]

theorem dropWhile_of_headFalse (l : List Char) (h : headIsWordChar l = false) :
    l.dropWhile isWordChar = l := by
  cases l with
  | nil => rfl
  | cons c rest => simp [headIsWordChar] at h; simp [List.dropWhile_cons, h]

theorem takeWhile_of_headTrue (l : List Char) (h : headIsWordChar l = true) :
    l.takeWhile isWordChar ≠ [] := by
  cases l with
  | nil => simp [headIsWordChar] at h
  | cons c rest =>
    simp [headIsWordChar] at h
    simp [List.takeWhile_cons, h]

theorem nn_toList : "nn".toList = ['n', 'n'] := rfl

theorem replNN_runs_aux (n : Nat) : ∀ l : List Char, l.length ≤ n →
    ∀ prev : Bool,
    replNN prev l =
      if prev then
        l.takeWhile isWordChar ++ runsReplace (l.dropWhile isWordChar)
      else runsReplace l := by
  induction n with
  | zero =>
    intro l hl prev
    have h0 : l = [] := List.length_eq_zero.mp (Nat.le_zero.mp hl)
    subst h0
    cases prev <;> simp [replNN, runsReplace]
  | succ n ih =>
    intro l hl prev
    match l with
    | [] => cases prev <;> simp [replNN, runsReplace]
    | c :: rest =>
      have hlr : rest.length ≤ n := by
        simp only [List.length_cons] at hl; omega
      by_cases hw : isWordChar c = true
      · by_cases hcn : c = 'n'
        · subst hcn
          match rest with
          | [] =>
            rw [replNN_cons_generic _ _ _ (Or.inr (fun r2 h => by cases h))]
            rw [isWordChar_n]
            have h0 : replNN true ([] : List Char) = [] := rfl
            rw [h0]
            cases prev with
            | true =>
              rw [if_pos rfl]
              simp [List.takeWhile_cons, List.dropWhile_cons, isWordChar_n,
                runsReplace]
            | false =>
              rw [if_neg (show ¬(false = true) by simp)]
              rw [runsReplace_cons_word _ _ isWordChar_n]
              rw [nn_toList]
              simp [runsReplace]
          | c2 :: rest2 =>
            have hlr2 : ('n' :: rest2).length ≤ n := by
              simp only [List.length_cons] at hl ⊢; omega
            have hlr2' : rest2.length ≤ n := by
              simp only [List.length_cons] at hl; omega
            by_cases hc2 : c2 = 'n'
            · subst hc2
              rw [replNN_nn]
              have hihcons := ih ('n' :: rest2) hlr2 true
              rw [if_pos rfl] at hihcons
              have htw : ('n' :: rest2).takeWhile isWordChar =
                  'n' :: rest2.takeWhile isWordChar := by
                simp [List.takeWhile_cons, isWordChar_n]
              have hdw : ('n' :: rest2).dropWhile isWordChar =
                  rest2.dropWhile isWordChar := by
                simp [List.dropWhile_cons, isWordChar_n]
              have htw2 : ('n' :: 'n' :: rest2).takeWhile isWordChar =
                  'n' :: 'n' :: rest2.takeWhile isWordChar := by
                simp [List.takeWhile_cons, isWordChar_n]
              have hdw2 : ('n' :: 'n' :: rest2).dropWhile isWordChar =
                  rest2.dropWhile isWordChar := by
                simp [List.dropWhile_cons, isWordChar_n]
              cases prev with
              | true =>
                rw [if_neg (show ¬((!true && !headIsWordChar rest2) = true)
                  by simp)]
                rw [hihcons, htw, hdw]
                rw [if_pos rfl]
                rw [htw2, hdw2]
                simp
              | false =>
                rw [if_neg (show ¬(false = true) by simp)]
                by_cases hh : headIsWordChar rest2 = true
                · rw [if_neg (show ¬((!false && !headIsWordChar rest2) = true)
                    by simp [hh])]
                  rw [hihcons, htw, hdw]
                  rw [runsReplace_cons_word _ _ isWordChar_n]
                  rw [if_neg (show ¬(('n' :: ('n' :: rest2).takeWhile
                      isWordChar) = "nn".toList) by
                    rw [nn_toList, htw]
                    intro heq
                    injection heq with h1 h2
                    injection h2 with h3 h4
                    exact takeWhile_of_headTrue rest2 hh h4)]
                  rw [htw, hdw]
                  simp
                · have hh' : headIsWordChar rest2 = false := by simpa using hh
                  rw [if_pos (show (!false && !headIsWordChar rest2) = true
                    by simp [hh'])]
                  rw [ih rest2 hlr2' true]
                  rw [if_pos rfl]
                  rw [takeWhile_of_headFalse rest2 hh',
                    dropWhile_of_headFalse rest2 hh']
                  rw [runsReplace_cons_word _ _ isWordChar_n]
                  rw [if_pos (show ('n' :: ('n' :: rest2).takeWhile
                      isWordChar) = "nn".toList by
                    rw [nn_toList, htw, takeWhile_of_headFalse rest2 hh'])]
                  rw [hdw, dropWhile_of_headFalse rest2 hh']
                  simp
            · rw [replNN_cons_generic _ _ _ (Or.inr (fun r2 h => by
                injection h with h1 h2
                exact hc2 h1))]
              rw [isWordChar_n]
              rw [ih (c2 :: rest2) (by
                simp only [List.length_cons] at hl ⊢; omega) true]
              rw [if_pos rfl]
              have hne : ('n' :: (c2 :: rest2).takeWhile isWordChar) ≠
                  "nn".toList := by
                rw [nn_toList]
                by_cases hw2 : isWordChar c2 = true <;>
                  simp [List.takeWhile_cons, hw2, hc2]
              have htw : (('n' : Char) :: c2 :: rest2).takeWhile isWordChar =
                  'n' :: (c2 :: rest2).takeWhile isWordChar := by
                simp [List.takeWhile_cons, isWordChar_n]
              have hdw : (('n' : Char) :: c2 :: rest2).dropWhile isWordChar =
                  (c2 :: rest2).dropWhile isWordChar := by
                simp [List.dropWhile_cons, isWordChar_n]
              cases prev with
              | true =>
                rw [if_pos rfl, htw, hdw]
                simp
              | false =>
                rw [if_neg (show ¬(false = true) by simp)]
                rw [runsReplace_cons_word _ _ isWordChar_n]
                rw [if_neg hne]
                simp
        · rw [replNN_cons_generic _ _ _ (Or.inl hcn)]
          rw [hw]
          rw [ih rest hlr true]
          rw [if_pos rfl]
          have hne : (c :: rest.takeWhile isWordChar) ≠ "nn".toList := by
            rw [nn_toList]
            intro heq
            injection heq with h1 h2
            exact hcn h1
          have htw : ((c :: rest).takeWhile isWordChar) =
              c :: rest.takeWhile isWordChar := by
            simp [List.takeWhile_cons, hw]
          have hdw : ((c :: rest).dropWhile isWordChar) =
              rest.dropWhile isWordChar := by
            simp [List.dropWhile_cons, hw]
          cases prev with
          | true =>
            rw [if_pos rfl, htw, hdw]
            simp
          | false =>
            rw [if_neg (show ¬(false = true) by simp)]
            rw [runsReplace_cons_word _ _ hw]
            rw [if_neg hne]
            simp
      · have hwf : isWordChar c = false := by simpa using hw
        have hc : c ≠ 'n' := by
          intro h0
          rw [h0, isWordChar_n] at hwf
          cases hwf
        rw [replNN_cons_generic _ _ _ (Or.inl hc)]
        rw [hwf]
        rw [ih rest hlr false]
        rw [if_neg (show ¬(false = true) by simp)]
        have hhd : headIsWordChar (c :: rest) = false := by
          simp [headIsWordChar, hwf]
        cases prev with
        | true =>
          rw [if_pos rfl]
          rw [takeWhile_of_headFalse (c :: rest) hhd,
            dropWhile_of_headFalse (c :: rest) hhd]
          rw [runsReplace_cons_nonword _ _ hwf]
          simp
        | false =>
          rw [if_neg (show ¬(false = true) by simp)]
          rw [runsReplace_cons_nonword _ _ hwf]

/-- At the start of a string (no word character before), the scanner equals
the maximal-word-run replacement. -/
theorem replNN_eq_runsReplace (l : List Char) :
    replNN false l = runsReplace l := by
  have h := replNN_runs_aux l.length l le_rfl false
  simpa using h

/-- Claim C8: for every input, `formatSource` replaces every whole-word
occurrence of `nn` — every maximal word-character run equal to `nn` — with
`Norma Nelson`, leaves `nn` embedded inside longer word runs unchanged
(every other run is kept verbatim), and returns the empty string for null or
absent input. -/
theorem claim_C8_formatSource_whole_word (s : Option String) :
    formatSource s =
      Option.elim s "" (fun t => String.mk (runsReplace t.toList)) := by
  cases s with
  | none => rfl
  | some t =>
    show (if t = "" then "" else String.mk (replNN false t.toList)) =
      String.mk (runsReplace t.toList)
    by_cases h : t = ""
    · subst h
      simp [runsReplace]
    · rw [if_neg h, replNN_eq_runsReplace]

/-- The spec's first example, evaluated on the embedded `formatSource`. -/
theorem formatSource_example_expand :
    formatSource (some "interviewed by nn") = "interviewed by Norma Nelson" :=
  rfl

/-- The spec's second example: `nn` inside a longer token is unchanged. -/
theorem formatSource_example_embedded :
    formatSource (some "annnounce") = "annnounce" := rfl

/-- The spec's third example: null input yields the empty string. -/
theorem formatSource_example_null : formatSource none = "" := rfl
